import Mathlib

/-
Shallow embedding of the portfolio state engine of the my-stocks
single-page application (src/src/app/page.tsx, duplicated in
src/unnamed/part_000).  JavaScript numbers are modelled as rationals;
JavaScript arrays as Lean lists; the watchlist record as a partial map
`String → Option (List String)`; the price `Map` as a partial map built
by successive overwriting inserts.  Every definition is translated
directly from the source handlers.
-/

namespace MyStocks

/-- `interface Stock` (a watch-stock): id, name, exchange, currentPrice,
previousDayPrice. -/
structure Stock where
  id : String
  name : String
  exchange : String
  currentPrice : ℚ
  previousDayPrice : ℚ
  deriving DecidableEq, Repr

/-- `interface HoldingStock`. -/
structure HoldingStock where
  id : String
  name : String
  exchange : String
  quantity : ℚ
  avgBuyPrice : ℚ
  currentMarketPrice : ℚ
  deriving DecidableEq, Repr

/-- The `'BUY' | 'SELL'` discriminant of a position. -/
inductive PositionType where
  | BUY
  | SELL
  deriving DecidableEq, Repr

/-- `interface PositionStock`. -/
structure PositionStock where
  id : String
  name : String
  exchange : String
  quantity : ℚ
  entryPrice : ℚ
  currentMarketPrice : ℚ
  type : PositionType
  deriving DecidableEq, Repr

/-- The `'up' | 'down'` direction of a price alert. -/
inductive AlertDirection where
  | up
  | down
  deriving DecidableEq, Repr

/-- `interface PriceAlert`; `id` is `Date.now()`, a number. -/
structure PriceAlert where
  id : ℕ
  stockId : String
  stockName : String
  targetPrice : ℚ
  direction : AlertDirection
  triggered : Bool
  deriving DecidableEq, Repr

/-! ## Position Ledger: buy -/

/-- The new holding literal created by `handleBuy` in the `holding`
branch when no existing holding has the bought name
(`id` is the freshly minted `` `h-${Date.now()}` `` identifier). -/
def freshHolding (stockName exchange : String) (currentPrice quantity : ℚ)
    (freshId : String) : HoldingStock :=
  { id := freshId, name := stockName, exchange := exchange,
    quantity := quantity, avgBuyPrice := currentPrice,
    currentMarketPrice := currentPrice }

/-- The new position literal created by `handleBuy` in the `position`
branch when no existing BUY position has the bought name. -/
def freshPosition (stockName exchange : String) (currentPrice quantity : ℚ)
    (freshId : String) : PositionStock :=
  { id := freshId, name := stockName, exchange := exchange,
    quantity := quantity, entryPrice := currentPrice,
    currentMarketPrice := currentPrice, type := .BUY }

/-- `handleBuy`, `transactionType === 'holding'` branch.  The source
locates the first holding with the bought name (`findIndex`), updates it
in place with the weighted-average cost basis, and otherwise appends a
new holding; the recursion updates exactly that first match. -/
def handleBuyHolding (stockName exchange : String) (currentPrice quantity : ℚ)
    (freshId : String) : List HoldingStock → List HoldingStock
  | [] => [freshHolding stockName exchange currentPrice quantity freshId]
  | h :: rest =>
    if h.name = stockName then
      { h with
          quantity := h.quantity + quantity,
          avgBuyPrice := (h.avgBuyPrice * h.quantity + currentPrice * quantity)
            / (h.quantity + quantity) } :: rest
    else
      h :: handleBuyHolding stockName exchange currentPrice quantity freshId rest

/-- `handleBuy`, `transactionType === 'position'` branch: the first
position with the bought name **and** `type === 'BUY'` is merged (the
source also refreshes its `currentMarketPrice`); otherwise a new BUY
position is appended. -/
def handleBuyPosition (stockName exchange : String) (currentPrice quantity : ℚ)
    (freshId : String) : List PositionStock → List PositionStock
  | [] => [freshPosition stockName exchange currentPrice quantity freshId]
  | p :: rest =>
    if p.name = stockName ∧ p.type = .BUY then
      { p with
          quantity := p.quantity + quantity,
          entryPrice := (p.entryPrice * p.quantity + currentPrice * quantity)
            / (p.quantity + quantity),
          currentMarketPrice := currentPrice } :: rest
    else
      p :: handleBuyPosition stockName exchange currentPrice quantity freshId rest

/-- A sequence of buys into the holdings bucket for one instrument name:
each fill is (fill price, quantity, fresh identifier). -/
def applyBuysHolding (stockName exchange : String) (hs : List HoldingStock)
    (fills : List (ℚ × ℚ × String)) : List HoldingStock :=
  fills.foldl
    (fun acc f => handleBuyHolding stockName exchange f.1 f.2.1 f.2.2 acc) hs

/-! ## Position Ledger: sell -/

/-- `handleSell`, `holding` branch: `findIndex` by id; index `-1` or
over-sell returns the previous array unchanged; selling the exact
quantity filters the entry out; otherwise the entry at the found index
is replaced with the quantity decremented. -/
def handleSellHolding (sellId : String) (quantity : ℚ)
    (prevHoldings : List HoldingStock) : List HoldingStock :=
  match prevHoldings.find? (fun h => h.id == sellId) with
  | none => prevHoldings
  | some holding =>
    if holding.quantity < quantity then prevHoldings
    else if holding.quantity = quantity then
      prevHoldings.filter (fun h => h.id != sellId)
    else
      prevHoldings.set (prevHoldings.findIdx (fun h => h.id == sellId))
        { holding with quantity := holding.quantity - quantity }

/-- `handleSell`, `position` branch (same shape as the holding branch). -/
def handleSellPosition (sellId : String) (quantity : ℚ)
    (prevPositions : List PositionStock) : List PositionStock :=
  match prevPositions.find? (fun p => p.id == sellId) with
  | none => prevPositions
  | some position =>
    if position.quantity < quantity then prevPositions
    else if position.quantity = quantity then
      prevPositions.filter (fun p => p.id != sellId)
    else
      prevPositions.set (prevPositions.findIdx (fun p => p.id == sellId))
        { position with quantity := position.quantity - quantity }

/-! ## Price map and Alert Evaluator

The alert-evaluation effect builds one `Map<string, number>` by writing
the watch-stocks, then the holdings, then the positions into it with
`Map.set` — a later write for the same key overwrites an earlier one —
and then scans the not-yet-triggered alerts against it, collecting the
ids of the alerts that fire (one `showNotification` call per collected
id) and finally marking exactly those alerts `triggered = true`. -/

/-- Successive `Map.set` writes of `entries` on top of the partial map
`m`: a later entry for the same key overwrites an earlier one. -/
def insertPrices (m : String → Option ℚ) (entries : List (String × ℚ)) :
    String → Option ℚ :=
  entries.foldl (fun acc e => fun k => if k = e.1 then some e.2 else acc k) m

/-- The `priceMap` of the alert-evaluation effect: stocks are written
first, then holdings, then positions. -/
def priceMap (stocks : List Stock) (holdings : List HoldingStock)
    (positions : List PositionStock) : String → Option ℚ :=
  insertPrices
    (insertPrices
      (insertPrices (fun _ => none)
        (stocks.map (fun s => (s.id, s.currentPrice))))
      (holdings.map (fun h => (h.id, h.currentMarketPrice))))
    (positions.map (fun p => (p.id, p.currentMarketPrice)))

/-- `hasTriggered` in the evaluation effect:
`(direction === 'up' && currentPrice >= targetPrice) ||
 (direction === 'down' && currentPrice <= targetPrice)`. -/
def hasCrossed (a : PriceAlert) (currentPrice : ℚ) : Bool :=
  match a.direction with
  | .up => decide (currentPrice ≥ a.targetPrice)
  | .down => decide (currentPrice ≤ a.targetPrice)

/-- The body of the `alerts.forEach` loop for one alert: `some a.id`
exactly when the alert is not yet triggered, its `stockId` is in the
price map, and the crossing condition holds — in which case the source
emits one notification and records the id in `triggeredAlertIds`. -/
def alertFire (priceOf : String → Option ℚ) (a : PriceAlert) : Option ℕ :=
  if a.triggered then none
  else
    match priceOf a.stockId with
    | none => none
    | some currentPrice => if hasCrossed a currentPrice then some a.id else none

/-- The `triggeredAlertIds` collected in one evaluation pass, in source
order; each element corresponds to exactly one `showNotification` call. -/
def evalGather (priceOf : String → Option ℚ) (alerts : List PriceAlert) :
    List ℕ :=
  alerts.filterMap (alertFire priceOf)

/-- One alert-evaluation pass: the final `setAlerts` maps every alert
whose id was collected to `{ ...a, triggered: true }` and leaves the
rest unchanged.  (The source skips the `setAlerts` call when the set is
empty; the map is then the identity, so the resulting list is the
same.) -/
def evalPass (priceOf : String → Option ℚ) (alerts : List PriceAlert) :
    List PriceAlert :=
  alerts.map (fun a =>
    if a.id ∈ evalGather priceOf alerts then { a with triggered := true }
    else a)

/-- The alert literal built by `handleSetAlert`: direction is `'up'`
when `targetPrice > currentPrice`, else `'down'`; `triggered` starts
`false`. -/
def mkAlert (id : ℕ) (stockId stockName : String)
    (currentPrice targetPrice : ℚ) : PriceAlert :=
  { id := id, stockId := stockId, stockName := stockName,
    targetPrice := targetPrice,
    direction := if currentPrice < targetPrice then .up else .down,
    triggered := false }

/-- `handleSetAlert` appends the new alert to the alert list. -/
def handleSetAlert (id : ℕ) (stockId stockName : String)
    (currentPrice targetPrice : ℚ) (prevAlerts : List PriceAlert) :
    List PriceAlert :=
  prevAlerts ++ [mkAlert id stockId stockName currentPrice targetPrice]

/-! ## Price Feed Simulator -/

/-- `updatePrice` of the interval effect:
`Math.max(0, price + (Math.random() - 0.5) * 0.5)`, with `r` the
`Math.random()` sample of this call. -/
def updatePrice (price r : ℚ) : ℚ := max 0 (price + (r - 1 / 2) * (1 / 2))

/-- One tick over the watch-stocks: each element is rebuilt with only
`currentPrice` replaced, using its own fresh random sample (`draw i` for
the element at index `i`). -/
def tickStocks (draw : ℕ → ℚ) : List Stock → List Stock
  | [] => []
  | s :: rest =>
    { s with currentPrice := updatePrice s.currentPrice (draw 0) } ::
      tickStocks (fun i => draw (i + 1)) rest

/-- One tick over the holdings (only `currentMarketPrice` changes). -/
def tickHoldings (draw : ℕ → ℚ) : List HoldingStock → List HoldingStock
  | [] => []
  | h :: rest =>
    { h with currentMarketPrice := updatePrice h.currentMarketPrice (draw 0) } ::
      tickHoldings (fun i => draw (i + 1)) rest

/-- One tick over the positions (only `currentMarketPrice` changes). -/
def tickPositions (draw : ℕ → ℚ) : List PositionStock → List PositionStock
  | [] => []
  | p :: rest =>
    { p with currentMarketPrice := updatePrice p.currentMarketPrice (draw 0) } ::
      tickPositions (fun i => draw (i + 1)) rest

/-! ## Portfolio totals -/

/-- `totalInvestedPositions` of `PortfolioPage`:
`positions.reduce((sum, s) => sum + s.quantity * s.entryPrice, 0)`. -/
def totalInvestedPositions (positions : List PositionStock) : ℚ :=
  positions.foldl (fun sum s => sum + s.quantity * s.entryPrice) 0

/-- `totalCurrentPositions` of `PortfolioPage`. -/
def totalCurrentPositions (positions : List PositionStock) : ℚ :=
  positions.foldl (fun sum s => sum + s.quantity * s.currentMarketPrice) 0

/-- `positionsPL` of `PortfolioPage`: plain difference of the two
totals, with no per-type sign adjustment. -/
def positionsPL (positions : List PositionStock) : ℚ :=
  totalCurrentPositions positions - totalInvestedPositions positions

/-- The per-item P&L of `PositionStockItem`, which **is** sign-adjusted:
SELL positions gain when the price drops. -/
def positionPL (stock : PositionStock) : ℚ :=
  if stock.type = .SELL then
    (stock.entryPrice - stock.currentMarketPrice) * stock.quantity
  else
    (stock.currentMarketPrice - stock.entryPrice) * stock.quantity

/-- Modelled from the claim's words, for comparison with the source's
`positionsPL`: a total profit in which each SELL position contributes
`(entryPrice − currentMarketPrice) × quantity` and each BUY position
`(currentMarketPrice − entryPrice) × quantity`. -/
def claimSignAdjustedProfit (positions : List PositionStock) : ℚ :=
  (positions.map positionPL).sum

/-! ## Watchlist Membership Store

`watchList` is a `Record<string, string[]>`, modelled as a partial map;
the object spread `{ ...prev, [watchListName]: v }` is the pointwise
update that (re)binds exactly the key `watchListName`. -/

/-- `handleAddStockToWatchlist`: append the id to the list (creating the
key when absent) unless the id is already present, in which case the
previous record is returned unchanged. -/
def handleAddStockToWatchlist (stockId watchListName : String)
    (prev : String → Option (List String)) : String → Option (List String) :=
  let currentList := (prev watchListName).getD []
  if stockId ∈ currentList then prev
  else fun k =>
    if k = watchListName then some (currentList ++ [stockId]) else prev k

/-- `handleRemoveStockFromWatchlist`: unconditionally rebind the key to
the filtered list (an absent key is read as `[]`, so the key is created
with value `[]`). -/
def handleRemoveStockFromWatchlist (stockId watchListName : String)
    (prev : String → Option (List String)) : String → Option (List String) :=
  fun k =>
    if k = watchListName then
      some (((prev watchListName).getD []).filter (fun i => i != stockId))
    else prev k

/-! ## Lemmas about buying -/

theorem handleBuyHolding_not_found (stockName exchange : String)
    (currentPrice quantity : ℚ) (freshId : String) (hs : List HoldingStock)
    (hn : ∀ x ∈ hs, x.name ≠ stockName) :
    handleBuyHolding stockName exchange currentPrice quantity freshId hs =
      hs ++ [freshHolding stockName exchange currentPrice quantity freshId] := by
  induction hs with
  | nil => rfl
  | cons h rest ih =>
    have hh : ¬ h.name = stockName := hn h (by simp)
    simp only [handleBuyHolding, if_neg hh, List.cons_append]
    exact congrArg _ (ih (fun x hx => hn x (by simp [hx])))

theorem handleBuyHolding_merge (stockName exchange : String)
    (currentPrice quantity : ℚ) (freshId : String)
    (l1 l2 : List HoldingStock) (h0 : HoldingStock)
    (hl1 : ∀ x ∈ l1, x.name ≠ stockName) (hh0 : h0.name = stockName) :
    handleBuyHolding stockName exchange currentPrice quantity freshId
        (l1 ++ h0 :: l2) =
      l1 ++ { h0 with
                quantity := h0.quantity + quantity,
                avgBuyPrice :=
                  (h0.avgBuyPrice * h0.quantity + currentPrice * quantity) /
                    (h0.quantity + quantity) } :: l2 := by
  induction l1 with
  | nil => simp only [List.nil_append, handleBuyHolding, if_pos hh0]
  | cons x rest ih =>
    have hx : ¬ x.name = stockName := hl1 x (by simp)
    simp only [List.cons_append, handleBuyHolding, if_neg hx]
    exact congrArg _ (ih (fun y hy => hl1 y (by simp [hy])))

theorem handleBuyPosition_not_found (stockName exchange : String)
    (currentPrice quantity : ℚ) (freshId : String) (ps : List PositionStock)
    (hn : ∀ x ∈ ps, ¬(x.name = stockName ∧ x.type = .BUY)) :
    handleBuyPosition stockName exchange currentPrice quantity freshId ps =
      ps ++ [freshPosition stockName exchange currentPrice quantity freshId] := by
  induction ps with
  | nil => rfl
  | cons p rest ih =>
    have hp : ¬(p.name = stockName ∧ p.type = .BUY) := hn p (by simp)
    simp only [handleBuyPosition, if_neg hp, List.cons_append]
    exact congrArg _ (ih (fun x hx => hn x (by simp [hx])))

theorem handleBuyPosition_merge (stockName exchange : String)
    (currentPrice quantity : ℚ) (freshId : String)
    (l1 l2 : List PositionStock) (p0 : PositionStock)
    (hl1 : ∀ x ∈ l1, ¬(x.name = stockName ∧ x.type = .BUY))
    (hp0 : p0.name = stockName) (hp0t : p0.type = .BUY) :
    handleBuyPosition stockName exchange currentPrice quantity freshId
        (l1 ++ p0 :: l2) =
      l1 ++ { p0 with
                quantity := p0.quantity + quantity,
                entryPrice :=
                  (p0.entryPrice * p0.quantity + currentPrice * quantity) /
                    (p0.quantity + quantity),
                currentMarketPrice := currentPrice } :: l2 := by
  induction l1 with
  | nil =>
    have hcond : p0.name = stockName ∧ p0.type = PositionType.BUY := ⟨hp0, hp0t⟩
    simp only [List.nil_append, handleBuyPosition, if_pos hcond]
  | cons x rest ih =>
    have hx : ¬(x.name = stockName ∧ x.type = .BUY) := hl1 x (by simp)
    simp only [List.cons_append, handleBuyPosition, if_neg hx]
    exact congrArg _ (ih (fun y hy => hl1 y (by simp [hy])))

theorem applyBuysHolding_invariant (stockName exchange : String)
    (fills : List (ℚ × ℚ × String)) (hs : List HoldingStock)
    (cur : HoldingStock)
    (hhs : ∀ x ∈ hs, x.name ≠ stockName) (hcur : cur.name = stockName)
    (hq : 0 < cur.quantity) (hfq : ∀ f ∈ fills, 0 < f.2.1) :
    ∃ res : HoldingStock,
      applyBuysHolding stockName exchange (hs ++ [cur]) fills = hs ++ [res] ∧
      res.name = stockName ∧
      0 < res.quantity ∧
      res.quantity = cur.quantity + (fills.map (fun f => f.2.1)).sum ∧
      res.avgBuyPrice * res.quantity =
        cur.avgBuyPrice * cur.quantity +
          (fills.map (fun f => f.1 * f.2.1)).sum := by
  induction fills generalizing cur with
  | nil => exact ⟨cur, rfl, hcur, hq, by simp, by simp⟩
  | cons f fs ih =>
    have hfpos : 0 < f.2.1 := hfq f (by simp)
    have hqpos : 0 < cur.quantity + f.2.1 := by linarith
    have hstep : handleBuyHolding stockName exchange f.1 f.2.1 f.2.2
        (hs ++ [cur]) =
        hs ++ [{ cur with
                   quantity := cur.quantity + f.2.1,
                   avgBuyPrice :=
                     (cur.avgBuyPrice * cur.quantity + f.1 * f.2.1) /
                       (cur.quantity + f.2.1) }] :=
      handleBuyHolding_merge stockName exchange f.1 f.2.1 f.2.2 hs [] cur
        hhs hcur
    have happ : applyBuysHolding stockName exchange (hs ++ [cur]) (f :: fs) =
        applyBuysHolding stockName exchange
          (hs ++ [{ cur with
                      quantity := cur.quantity + f.2.1,
                      avgBuyPrice :=
                        (cur.avgBuyPrice * cur.quantity + f.1 * f.2.1) /
                          (cur.quantity + f.2.1) }]) fs := by
      simp only [applyBuysHolding, List.foldl_cons, hstep]
    obtain ⟨res, h1, h2, h3, h4, h5⟩ :=
      ih { cur with
             quantity := cur.quantity + f.2.1,
             avgBuyPrice :=
               (cur.avgBuyPrice * cur.quantity + f.1 * f.2.1) /
                 (cur.quantity + f.2.1) }
        hcur hqpos (fun g hg => hfq g (by simp [hg]))
    refine ⟨res, happ.trans h1, h2, h3, ?_, ?_⟩
    · simp only [List.map_cons, List.sum_cons] at h4 ⊢
      rw [h4]; ring
    · simp only [List.map_cons, List.sum_cons] at h5 ⊢
      rw [h5, div_mul_cancel₀ _ (ne_of_gt hqpos)]; ring

/-- **C1**: a buy of quantity `q > 0` at current price `p` merges into
the first entry of the same name (same name and `type = BUY` for
positions), giving quantity `oldQty + q` and cost basis
`(oldAvg*oldQty + p*q)/(oldQty + q)`, and otherwise appends a fresh
entry with quantity `q`, cost basis `p` and the freshly minted
identifier; consequently every nonempty sequence of positive-quantity
buys on a fresh holding name produces one holding whose `avgBuyPrice` is
the quantity-weighted mean of the fill prices. -/
theorem C1_buy_weighted_average
    (stockName exchange : String) (currentPrice quantity : ℚ)
    (freshId : String) (hq : 0 < quantity) :
    (∀ (l1 l2 : List HoldingStock) (h0 : HoldingStock),
      (∀ x ∈ l1, x.name ≠ stockName) → h0.name = stockName →
      handleBuyHolding stockName exchange currentPrice quantity freshId
          (l1 ++ h0 :: l2) =
        l1 ++ { h0 with
                  quantity := h0.quantity + quantity,
                  avgBuyPrice :=
                    (h0.avgBuyPrice * h0.quantity + currentPrice * quantity) /
                      (h0.quantity + quantity) } :: l2) ∧
    (∀ hs : List HoldingStock, (∀ x ∈ hs, x.name ≠ stockName) →
      handleBuyHolding stockName exchange currentPrice quantity freshId hs =
        hs ++ [freshHolding stockName exchange currentPrice quantity freshId]) ∧
    (∀ (l1 l2 : List PositionStock) (p0 : PositionStock),
      (∀ x ∈ l1, ¬(x.name = stockName ∧ x.type = .BUY)) →
      p0.name = stockName → p0.type = .BUY →
      handleBuyPosition stockName exchange currentPrice quantity freshId
          (l1 ++ p0 :: l2) =
        l1 ++ { p0 with
                  quantity := p0.quantity + quantity,
                  entryPrice :=
                    (p0.entryPrice * p0.quantity + currentPrice * quantity) /
                      (p0.quantity + quantity),
                  currentMarketPrice := currentPrice } :: l2) ∧
    (∀ ps : List PositionStock,
      (∀ x ∈ ps, ¬(x.name = stockName ∧ x.type = .BUY)) →
      handleBuyPosition stockName exchange currentPrice quantity freshId ps =
        ps ++ [freshPosition stockName exchange currentPrice quantity freshId]) ∧
    (∀ (hs : List HoldingStock) (fills : List (ℚ × ℚ × String)),
      (∀ x ∈ hs, x.name ≠ stockName) → fills ≠ [] →
      (∀ f ∈ fills, 0 < f.2.1) →
      ∃ res : HoldingStock,
        applyBuysHolding stockName exchange hs fills = hs ++ [res] ∧
        res.quantity = (fills.map (fun f => f.2.1)).sum ∧
        res.avgBuyPrice = (fills.map (fun f => f.1 * f.2.1)).sum /
          (fills.map (fun f => f.2.1)).sum) := by
  refine ⟨fun l1 l2 h0 hl1 hh0 =>
      handleBuyHolding_merge stockName exchange currentPrice quantity freshId
        l1 l2 h0 hl1 hh0,
    fun hs hn =>
      handleBuyHolding_not_found stockName exchange currentPrice quantity
        freshId hs hn,
    fun l1 l2 p0 hl1 hp0 hp0t =>
      handleBuyPosition_merge stockName exchange currentPrice quantity freshId
        l1 l2 p0 hl1 hp0 hp0t,
    fun ps hn =>
      handleBuyPosition_not_found stockName exchange currentPrice quantity
        freshId ps hn,
    fun hs fills hn hne hfq => ?_⟩
  match fills with
  | [] => exact absurd rfl hne
  | f :: fs =>
    have hfpos : 0 < f.2.1 := hfq f (by simp)
    have hfirst : applyBuysHolding stockName exchange hs (f :: fs) =
        applyBuysHolding stockName exchange
          (hs ++ [freshHolding stockName exchange f.1 f.2.1 f.2.2]) fs := by
      simp only [applyBuysHolding, List.foldl_cons,
        handleBuyHolding_not_found stockName exchange f.1 f.2.1 f.2.2 hs hn]
    obtain ⟨res, h1, _, h3, h4, h5⟩ :=
      applyBuysHolding_invariant stockName exchange fs hs
        (freshHolding stockName exchange f.1 f.2.1 f.2.2) hn rfl hfpos
        (fun g hg => hfq g (by simp [hg]))
    have h4' : res.quantity = f.2.1 + (fs.map (fun g => g.2.1)).sum := by
      simpa [freshHolding] using h4
    have h5' : res.avgBuyPrice * res.quantity =
        f.1 * f.2.1 + (fs.map (fun g => g.1 * g.2.1)).sum := by
      simpa [freshHolding] using h5
    refine ⟨res, hfirst.trans h1, ?_, ?_⟩
    · simp only [List.map_cons, List.sum_cons]
      exact h4'
    · simp only [List.map_cons, List.sum_cons]
      rw [← h4', ← h5']
      exact (mul_div_cancel_right₀ _ (ne_of_gt h3)).symm

/-! ## Lemmas about selling -/

theorem find?_some_spec {α : Type} (p : α → Bool) (l : List α) (a : α)
    (h : l.find? p = some a) :
    p a = true ∧ l.findIdx p < l.length ∧ l[l.findIdx p]? = some a := by
  induction l with
  | nil => simp at h
  | cons x xs ih =>
    by_cases hx : p x
    · rw [List.find?_cons_of_pos _ hx] at h
      obtain rfl : x = a := by simpa using h
      simp [List.findIdx_cons, hx]
    · rw [List.find?_cons_of_neg _ hx] at h
      obtain ⟨h1, h2, h3⟩ := ih h
      refine ⟨h1, ?_, ?_⟩
      · simp only [List.findIdx_cons, hx, cond_false, List.length_cons]
        omega
      · simp only [List.findIdx_cons, hx, cond_false, List.getElem?_cons_succ]
        exact h3

/-- **C2**: selling `q` with `0 < q ≤ n` from an existing ledger entry of
quantity `n` removes the entry entirely when `q = n` (no zero-quantity
record survives), and when `q < n` leaves the entry in place with
quantity `n − q`, the cost basis and all other fields unchanged, and all
other entries untouched — for both holdings and positions. -/
theorem C2_sell_decrement_or_remove :
    (∀ (sellId : String) (q : ℚ) (hs : List HoldingStock) (h0 : HoldingStock),
      hs.find? (fun h => h.id == sellId) = some h0 → 0 < q →
      (q = h0.quantity →
        handleSellHolding sellId q hs = hs.filter (fun h => h.id != sellId) ∧
        ∀ h ∈ handleSellHolding sellId q hs, h.id ≠ sellId) ∧
      (q < h0.quantity →
        (handleSellHolding sellId q hs)[hs.findIdx (fun h => h.id == sellId)]? =
          some { h0 with quantity := h0.quantity - q } ∧
        ∀ j, j ≠ hs.findIdx (fun h => h.id == sellId) →
          (handleSellHolding sellId q hs)[j]? = hs[j]?)) ∧
    (∀ (sellId : String) (q : ℚ) (ps : List PositionStock) (p0 : PositionStock),
      ps.find? (fun p => p.id == sellId) = some p0 → 0 < q →
      (q = p0.quantity →
        handleSellPosition sellId q ps = ps.filter (fun p => p.id != sellId) ∧
        ∀ p ∈ handleSellPosition sellId q ps, p.id ≠ sellId) ∧
      (q < p0.quantity →
        (handleSellPosition sellId q ps)[ps.findIdx (fun p => p.id == sellId)]? =
          some { p0 with quantity := p0.quantity - q } ∧
        ∀ j, j ≠ ps.findIdx (fun p => p.id == sellId) →
          (handleSellPosition sellId q ps)[j]? = ps[j]?)) := by
  constructor
  · intro sellId q hs h0 hfind hq
    obtain ⟨-, hlen, -⟩ := find?_some_spec _ _ _ hfind
    constructor
    · rintro rfl
      have heq : handleSellHolding sellId h0.quantity hs =
          hs.filter (fun h => h.id != sellId) := by
        unfold handleSellHolding
        simp [hfind]
      refine ⟨heq, fun h hmem => ?_⟩
      rw [heq] at hmem
      exact bne_iff_ne.mp (List.mem_filter.mp hmem).2
    · intro hlt
      have heq : handleSellHolding sellId q hs =
          hs.set (hs.findIdx (fun h => h.id == sellId))
            { h0 with quantity := h0.quantity - q } := by
        unfold handleSellHolding
        simp only [hfind]
        rw [if_neg (not_lt.mpr (le_of_lt hlt)), if_neg (ne_of_gt hlt)]
      refine ⟨?_, fun j hj => ?_⟩
      · rw [heq]
        exact List.getElem?_set_eq_of_lt _ hlen
      · rw [heq]
        exact List.getElem?_set_ne (Ne.symm hj)
  · intro sellId q ps p0 hfind hq
    obtain ⟨-, hlen, -⟩ := find?_some_spec _ _ _ hfind
    constructor
    · rintro rfl
      have heq : handleSellPosition sellId p0.quantity ps =
          ps.filter (fun p => p.id != sellId) := by
        unfold handleSellPosition
        simp [hfind]
      refine ⟨heq, fun p hmem => ?_⟩
      rw [heq] at hmem
      exact bne_iff_ne.mp (List.mem_filter.mp hmem).2
    · intro hlt
      have heq : handleSellPosition sellId q ps =
          ps.set (ps.findIdx (fun p => p.id == sellId))
            { p0 with quantity := p0.quantity - q } := by
        unfold handleSellPosition
        simp only [hfind]
        rw [if_neg (not_lt.mpr (le_of_lt hlt)), if_neg (ne_of_gt hlt)]
      refine ⟨?_, fun j hj => ?_⟩
      · rw [heq]
        exact List.getElem?_set_eq_of_lt _ hlen
      · rw [heq]
        exact List.getElem?_set_ne (Ne.symm hj)

/-- **C3**: a sell whose `entryId` matches no entry of the bucket, or
whose quantity exceeds the matched entry's quantity, returns the
previous collection itself — a silent no-op (the handlers are total, so
no error can be raised) — for both holdings and positions. -/
theorem C3_sell_silent_noop :
    (∀ (sellId : String) (q : ℚ) (hs : List HoldingStock),
      ((∀ h ∈ hs, h.id ≠ sellId) ∨
        ∃ h0, hs.find? (fun h => h.id == sellId) = some h0 ∧ h0.quantity < q) →
      handleSellHolding sellId q hs = hs) ∧
    (∀ (sellId : String) (q : ℚ) (ps : List PositionStock),
      ((∀ p ∈ ps, p.id ≠ sellId) ∨
        ∃ p0, ps.find? (fun p => p.id == sellId) = some p0 ∧ p0.quantity < q) →
      handleSellPosition sellId q ps = ps) := by
  constructor
  · intro sellId q hs habs
    rcases habs with habs | ⟨h0, hfind, hover⟩
    · have hnone : hs.find? (fun h => h.id == sellId) = none :=
        List.find?_eq_none.mpr (fun x hx => by
          simpa [beq_iff_eq] using habs x hx)
      unfold handleSellHolding
      rw [hnone]
    · unfold handleSellHolding
      simp only [hfind]
      rw [if_pos hover]
  · intro sellId q ps habs
    rcases habs with habs | ⟨p0, hfind, hover⟩
    · have hnone : ps.find? (fun p => p.id == sellId) = none :=
        List.find?_eq_none.mpr (fun x hx => by
          simpa [beq_iff_eq] using habs x hx)
      unfold handleSellPosition
      rw [hnone]
    · unfold handleSellPosition
      simp only [hfind]
      rw [if_pos hover]

/-! ## Lemmas about the Alert Evaluator -/

theorem alertFire_eq_some (priceOf : String → Option ℚ) (a : PriceAlert)
    (x : ℕ) :
    alertFire priceOf a = some x ↔
      a.triggered = false ∧
        ∃ p, priceOf a.stockId = some p ∧ hasCrossed a p = true ∧ a.id = x := by
  unfold alertFire
  cases ht : a.triggered with
  | true => simp [Option.ite_none_right_eq_some]
  | false =>
    cases hp : priceOf a.stockId with
    | none => simp
    | some p =>
      cases hc : hasCrossed a p with
      | false => simp [hc]
      | true => simp [hc]

theorem mem_evalGather (priceOf : String → Option ℚ)
    (alerts : List PriceAlert) (x : ℕ) :
    x ∈ evalGather priceOf alerts ↔
      ∃ a ∈ alerts, a.triggered = false ∧
        ∃ p, priceOf a.stockId = some p ∧ hasCrossed a p = true ∧ a.id = x := by
  simp [evalGather, List.mem_filterMap, alertFire_eq_some]

theorem evalGather_sublist (priceOf : String → Option ℚ)
    (alerts : List PriceAlert) :
    List.Sublist (evalGather priceOf alerts) (alerts.map PriceAlert.id) := by
  induction alerts with
  | nil => simp [evalGather]
  | cons a as ih =>
    cases hfa : alertFire priceOf a with
    | none =>
      rw [evalGather, List.filterMap_cons_none hfa, List.map_cons]
      exact List.Sublist.cons a.id ih
    | some x =>
      obtain ⟨-, p, hp, hc, hid⟩ := (alertFire_eq_some priceOf a x).mp hfa
      subst hid
      rw [evalGather, List.filterMap_cons_some hfa, List.map_cons]
      exact List.Sublist.cons₂ a.id ih

theorem id_mem_evalGather (priceOf : String → Option ℚ)
    {alerts : List PriceAlert} (hnd : (alerts.map PriceAlert.id).Nodup)
    {a : PriceAlert} (ha : a ∈ alerts) :
    a.id ∈ evalGather priceOf alerts ↔
      (a.triggered = false ∧
        ∃ p, priceOf a.stockId = some p ∧ hasCrossed a p = true) := by
  rw [mem_evalGather]
  constructor
  · rintro ⟨b, hb, hbt, p, hp, hc, hbid⟩
    have hba : b = a := List.inj_on_of_nodup_map hnd hb ha hbid
    subst hba
    exact ⟨hbt, p, hp, hc⟩
  · rintro ⟨ht, p, hp, hc⟩
    exact ⟨a, ha, ht, p, hp, hc, rfl⟩

theorem mem_of_getElem?_eq_some {α : Type} {l : List α} {i : ℕ} {a : α}
    (h : l[i]? = some a) : a ∈ l := by
  obtain ⟨hl, rfl⟩ := List.getElem?_eq_some.mp h
  exact List.getElem_mem hl

theorem evalPass_getElem?_fire (priceOf : String → Option ℚ)
    {alerts : List PriceAlert} (hnd : (alerts.map PriceAlert.id).Nodup)
    {i : ℕ} {a : PriceAlert} (ha : alerts[i]? = some a)
    (ht : a.triggered = false) {p : ℚ} (hp : priceOf a.stockId = some p)
    (hc : hasCrossed a p = true) :
    (evalPass priceOf alerts)[i]? = some { a with triggered := true } := by
  have hmem : a ∈ alerts := mem_of_getElem?_eq_some ha
  have hin : a.id ∈ evalGather priceOf alerts :=
    (id_mem_evalGather priceOf hnd hmem).mpr ⟨ht, p, hp, hc⟩
  unfold evalPass
  rw [List.getElem?_map, ha]
  simp [hin]

theorem evalPass_getElem?_skip (priceOf : String → Option ℚ)
    {alerts : List PriceAlert} (hnd : (alerts.map PriceAlert.id).Nodup)
    {i : ℕ} {a : PriceAlert} (ha : alerts[i]? = some a)
    (hno : ¬(a.triggered = false ∧
      ∃ p, priceOf a.stockId = some p ∧ hasCrossed a p = true)) :
    (evalPass priceOf alerts)[i]? = some a := by
  have hmem : a ∈ alerts := mem_of_getElem?_eq_some ha
  have hnin : a.id ∉ evalGather priceOf alerts := fun h =>
    hno ((id_mem_evalGather priceOf hnd hmem).mp h)
  unfold evalPass
  rw [List.getElem?_map, ha]
  simp [hnin]

/-- **C4**: for alerts with pairwise-distinct ids, one evaluation pass
(1) never triggers an `up` alert whose looked-up price is strictly below
its target, (2) never triggers a `down` alert whose price is strictly
above its target, (3) marks a not-yet-triggered alert whose crossing
condition holds as `triggered = true` and emits exactly one
notification for it (its id occurs exactly once among the collected
notification ids), and (4) leaves an already-triggered alert unchanged
— still `triggered = true` — and emits no notification for it, for
every price snapshot, hence in every later pass. -/
theorem C4_alert_trigger_monotonic (priceOf : String → Option ℚ)
    (alerts : List PriceAlert) (hnd : (alerts.map PriceAlert.id).Nodup)
    (i : ℕ) (a : PriceAlert) (ha : alerts[i]? = some a) :
    (a.triggered = false → a.direction = .up → ∀ p, priceOf a.stockId = some p →
      p < a.targetPrice → (evalPass priceOf alerts)[i]? = some a) ∧
    (a.triggered = false → a.direction = .down → ∀ p, priceOf a.stockId = some p →
      a.targetPrice < p → (evalPass priceOf alerts)[i]? = some a) ∧
    (a.triggered = false → ∀ p, priceOf a.stockId = some p →
      hasCrossed a p = true →
      (evalPass priceOf alerts)[i]? = some { a with triggered := true } ∧
      (evalGather priceOf alerts).count a.id = 1) ∧
    (a.triggered = true →
      (evalPass priceOf alerts)[i]? = some a ∧
      a.id ∉ evalGather priceOf alerts) := by
  have hmem : a ∈ alerts := mem_of_getElem?_eq_some ha
  refine ⟨?_, ?_, ?_, ?_⟩
  · intro ht hd p hp hlt
    refine evalPass_getElem?_skip priceOf hnd ha ?_
    rintro ⟨-, p', hp', hc'⟩
    obtain rfl : p' = p := by
      rw [hp] at hp'
      exact (Option.some_inj.mp hp').symm
    rw [hasCrossed, hd] at hc'
    simp only [decide_eq_true_eq, ge_iff_le] at hc'
    exact absurd hc' (not_le.mpr hlt)
  · intro ht hd p hp hlt
    refine evalPass_getElem?_skip priceOf hnd ha ?_
    rintro ⟨-, p', hp', hc'⟩
    obtain rfl : p' = p := by
      rw [hp] at hp'
      exact (Option.some_inj.mp hp').symm
    rw [hasCrossed, hd] at hc'
    simp only [decide_eq_true_eq] at hc'
    exact absurd hc' (not_le.mpr hlt)
  · intro ht p hp hc
    refine ⟨evalPass_getElem?_fire priceOf hnd ha ht hp hc, ?_⟩
    have hin : a.id ∈ evalGather priceOf alerts :=
      (id_mem_evalGather priceOf hnd hmem).mpr ⟨ht, p, hp, hc⟩
    have hgnd : (evalGather priceOf alerts).Nodup :=
      List.Nodup.sublist (evalGather_sublist priceOf alerts) hnd
    exact List.count_eq_one_of_mem hgnd hin
  · intro ht
    have hnin : a.id ∉ evalGather priceOf alerts := fun h => by
      obtain ⟨hf, -⟩ := (id_mem_evalGather priceOf hnd hmem).mp h
      rw [ht] at hf
      exact Bool.true_eq_false.mp hf
    refine ⟨evalPass_getElem?_skip priceOf hnd ha ?_, hnin⟩
    rintro ⟨hf, -⟩
    rw [ht] at hf
    exact Bool.true_eq_false.mp hf

/-- **C10**: an alert set with `targetPrice` equal to the instrument's
current price gets `direction = down` (the strict `targetPrice >
currentPrice` comparison decides `up`), its crossing condition holds at
that same price, and in the next evaluation pass over the appended alert
list — prices unchanged — it is marked `triggered = true` with exactly
one notification. -/
theorem C10_equal_target_alert (id : ℕ) (sid sname : String) (price : ℚ)
    (prev : List PriceAlert) (priceOf : String → Option ℚ)
    (hnd : ((handleSetAlert id sid sname price price prev).map
      PriceAlert.id).Nodup)
    (hp : priceOf sid = some price) :
    (mkAlert id sid sname price price).direction = .down ∧
    hasCrossed (mkAlert id sid sname price price) price = true ∧
    (evalPass priceOf
        (handleSetAlert id sid sname price price prev))[prev.length]? =
      some { mkAlert id sid sname price price with triggered := true } ∧
    (evalGather priceOf (handleSetAlert id sid sname price price prev)).count
      id = 1 := by
  have hdir : (mkAlert id sid sname price price).direction = .down := by
    simp [mkAlert]
  have hcross : hasCrossed (mkAlert id sid sname price price) price = true := by
    rw [hasCrossed, hdir]
    simp [mkAlert]
  have ha : (handleSetAlert id sid sname price price prev)[prev.length]? =
      some (mkAlert id sid sname price price) := by
    unfold handleSetAlert
    exact List.getElem?_concat_length prev _
  have hmem : mkAlert id sid sname price price ∈
      handleSetAlert id sid sname price price prev :=
    mem_of_getElem?_eq_some ha
  refine ⟨hdir, hcross, ?_, ?_⟩
  · exact evalPass_getElem?_fire priceOf hnd ha rfl hp hcross
  · have hin : (mkAlert id sid sname price price).id ∈
        evalGather priceOf (handleSetAlert id sid sname price price prev) :=
      (id_mem_evalGather priceOf hnd hmem).mpr ⟨rfl, price, hp, hcross⟩
    have hgnd : (evalGather priceOf
        (handleSetAlert id sid sname price price prev)).Nodup :=
      List.Nodup.sublist (evalGather_sublist priceOf _) hnd
    exact List.count_eq_one_of_mem hgnd hin

/-! ## Lemmas about the price map (C5) -/

/-- The last-written value for key `k` among `entries` (later entries
shadow earlier ones), `none` when no entry has the key. -/
def assocLast (entries : List (String × ℚ)) (k : String) : Option ℚ :=
  entries.foldl (fun acc e => if k = e.1 then some e.2 else acc) none

theorem insertPrices_apply (m : String → Option ℚ)
    (entries : List (String × ℚ)) (k : String) :
    insertPrices m entries k = (assocLast entries k).elim (m k) some := by
  induction entries using List.reverseRecOn with
  | nil => rfl
  | append_singleton es e ih =>
    rw [insertPrices, assocLast, List.foldl_append, List.foldl_append]
    by_cases hk : k = e.1
    · simp [hk]
    · simpa [hk, insertPrices, assocLast] using ih

theorem assocLast_eq_none (entries : List (String × ℚ)) (k : String)
    (h : ∀ e ∈ entries, e.1 ≠ k) : assocLast entries k = none := by
  induction entries using List.reverseRecOn with
  | nil => rfl
  | append_singleton es e ih =>
    rw [assocLast, List.foldl_append]
    have hk : ¬ k = e.1 := fun hc => h e (by simp) (hc.symm)
    simpa [hk, assocLast] using ih (fun x hx => h x (by simp [hx]))

theorem assocLast_isSome (entries : List (String × ℚ)) (k : String)
    (h : ∃ e ∈ entries, e.1 = k) : assocLast entries k ≠ none := by
  induction entries using List.reverseRecOn with
  | nil => simp at h
  | append_singleton es e ih =>
    rw [assocLast, List.foldl_append]
    by_cases hk : k = e.1
    · simp [hk]
    · obtain ⟨x, hx, hxk⟩ := h
      simp only [List.mem_append, List.mem_singleton] at hx
      rcases hx with hx | rfl
      · simpa [hk, assocLast] using ih ⟨x, hx, hxk⟩
      · exact absurd hxk.symm hk

/-- **C5 counterexample**: a watch-stock and a position share id `x`
with prices 10 and 20; the evaluation price map yields the positions
price 20, not the watch-stock price 10 that the claimed
watch-stocks-first precedence would give. -/
theorem C5_counterexample :
    priceMap
        [{ id := "x", name := "X", exchange := "NSE", currentPrice := 10,
           previousDayPrice := 10 }] []
        [{ id := "x", name := "X", exchange := "NSE", quantity := 1,
           entryPrice := 20, currentMarketPrice := 20, type := .BUY }] "x" =
      some 20 ∧
    priceMap
        [{ id := "x", name := "X", exchange := "NSE", currentPrice := 10,
           previousDayPrice := 10 }] []
        [{ id := "x", name := "X", exchange := "NSE", quantity := 1,
           entryPrice := 20, currentMarketPrice := 20, type := .BUY }] "x" ≠
      some 10 := by
  constructor
  · rfl
  · decide

/-- **C5 amended**: the price lookup of the alert evaluator is
last-write-wins over the sources written in order watch-stocks,
holdings, positions — so a positions entry takes precedence over
holdings and watch-stocks, a holdings entry over watch-stocks, and the
watch-stock price is used only when neither a holding nor a position
carries the id (within one source list, the last occurrence wins). -/
theorem C5_lookup_last_write_wins (stocks : List Stock)
    (holdings : List HoldingStock) (positions : List PositionStock)
    (k : String) :
    ((∃ p ∈ positions, p.id = k) →
      priceMap stocks holdings positions k =
        (assocLast (positions.map (fun p => (p.id, p.currentMarketPrice))) k).elim
          none some ∧
      priceMap stocks holdings positions k ≠ none) ∧
    ((∀ p ∈ positions, p.id ≠ k) → (∃ h ∈ holdings, h.id = k) →
      priceMap stocks holdings positions k =
        (assocLast (holdings.map (fun h => (h.id, h.currentMarketPrice))) k).elim
          none some ∧
      priceMap stocks holdings positions k ≠ none) ∧
    ((∀ p ∈ positions, p.id ≠ k) → (∀ h ∈ holdings, h.id ≠ k) →
      priceMap stocks holdings positions k =
        (assocLast (stocks.map (fun s => (s.id, s.currentPrice))) k).elim
          none some) := by
  refine ⟨fun hpos => ?_, fun hnop hhold => ?_, fun hnop hnoh => ?_⟩
  · obtain ⟨p, hp, hpk⟩ := hpos
    have hsome : assocLast
        (positions.map (fun p => (p.id, p.currentMarketPrice))) k ≠ none :=
      assocLast_isSome _ _ ⟨(p.id, p.currentMarketPrice), by
        simp only [List.mem_map]
        exact ⟨p, hp, rfl⟩, hpk⟩
    obtain ⟨v, hv⟩ := Option.ne_none_iff_exists'.mp hsome
    rw [priceMap, insertPrices_apply, hv]
    simp
  · have hnone : assocLast
        (positions.map (fun p => (p.id, p.currentMarketPrice))) k = none :=
      assocLast_eq_none _ _ (by
        intro e he
        simp only [List.mem_map] at he
        obtain ⟨p, hp, rfl⟩ := he
        exact hnop p hp)
    obtain ⟨h, hh, hhk⟩ := hhold
    have hsome : assocLast
        (holdings.map (fun h => (h.id, h.currentMarketPrice))) k ≠ none :=
      assocLast_isSome _ _ ⟨(h.id, h.currentMarketPrice), by
        simp only [List.mem_map]
        exact ⟨h, hh, rfl⟩, hhk⟩
    obtain ⟨v, hv⟩ := Option.ne_none_iff_exists'.mp hsome
    rw [priceMap, insertPrices_apply, hnone, insertPrices_apply, hv]
    simp
  · have hnonep : assocLast
        (positions.map (fun p => (p.id, p.currentMarketPrice))) k = none :=
      assocLast_eq_none _ _ (by
        intro e he
        simp only [List.mem_map] at he
        obtain ⟨p, hp, rfl⟩ := he
        exact hnop p hp)
    have hnoneh : assocLast
        (holdings.map (fun h => (h.id, h.currentMarketPrice))) k = none :=
      assocLast_eq_none _ _ (by
        intro e he
        simp only [List.mem_map] at he
        obtain ⟨h, hh, rfl⟩ := he
        exact hnoh h hh)
    rw [priceMap, insertPrices_apply, hnonep, insertPrices_apply, hnoneh]
    simp only [Option.elim]
    rw [insertPrices_apply]
    cases hs : assocLast (stocks.map (fun s => (s.id, s.currentPrice))) k <;>
      simp [hs]

/-! ## Lemmas about portfolio totals (C6) -/

theorem foldl_add_map_sum (l : List PositionStock) (f : PositionStock → ℚ)
    (init : ℚ) :
    l.foldl (fun sum s => sum + f s) init = init + (l.map f).sum := by
  induction l generalizing init with
  | nil => simp
  | cons x xs ih =>
    rw [List.foldl_cons, ih (init + f x), List.map_cons, List.sum_cons]
    ring

theorem sum_map_sub (l : List PositionStock) (f g : PositionStock → ℚ) :
    (l.map (fun x => f x - g x)).sum = (l.map f).sum - (l.map g).sum := by
  induction l with
  | nil => simp
  | cons x xs ih =>
    simp only [List.map_cons, List.sum_cons, ih]
    ring

/-- **C6 counterexample**: for the single SELL position of the spec's
own scenario (`entry 1470`, `current 1450.75`, `quantity 15`), the
summary profit `positionsPL` is `−288.75`, whereas the claimed
sign-adjusted total is `+288.75`; the summary total is **not**
sign-adjusted per position type. -/
theorem C6_counterexample :
    positionsPL
        [{ id := "p-1", name := "HDFC", exchange := "NSE", quantity := 15,
           entryPrice := 1470, currentMarketPrice := 5803 / 4,
           type := .SELL }] = -(1155 / 4) ∧
    claimSignAdjustedProfit
        [{ id := "p-1", name := "HDFC", exchange := "NSE", quantity := 15,
           entryPrice := 1470, currentMarketPrice := 5803 / 4,
           type := .SELL }] = 1155 / 4 ∧
    positionsPL
        [{ id := "p-1", name := "HDFC", exchange := "NSE", quantity := 15,
           entryPrice := 1470, currentMarketPrice := 5803 / 4,
           type := .SELL }] ≠
      claimSignAdjustedProfit
        [{ id := "p-1", name := "HDFC", exchange := "NSE", quantity := 15,
           entryPrice := 1470, currentMarketPrice := 5803 / 4,
           type := .SELL }] := by
  refine ⟨?_, ?_, ?_⟩ <;>
    norm_num [positionsPL, totalInvestedPositions, totalCurrentPositions,
      claimSignAdjustedProfit, positionPL]

/-- **C6 amended**: the queried totals satisfy
`investedAmount = Σ quantity × entryPrice` and
`currentAmount = Σ quantity × currentMarketPrice`, and the summary
profit is the plain difference `currentAmount − investedAmount`, i.e.
every position — SELL included — contributes
`quantity × (currentMarketPrice − entryPrice)`; the per-type sign
adjustment exists only in the per-position item P&L, where a SELL
position contributes `(entryPrice − currentMarketPrice) × quantity` and
a BUY position `(currentMarketPrice − entryPrice) × quantity`. -/
theorem C6_totals_not_sign_adjusted :
    (∀ positions : List PositionStock,
      totalInvestedPositions positions =
        (positions.map (fun s => s.quantity * s.entryPrice)).sum) ∧
    (∀ positions : List PositionStock,
      totalCurrentPositions positions =
        (positions.map (fun s => s.quantity * s.currentMarketPrice)).sum) ∧
    (∀ positions : List PositionStock,
      positionsPL positions =
        (positions.map
          (fun s => s.quantity * (s.currentMarketPrice - s.entryPrice))).sum) ∧
    (∀ s : PositionStock, s.type = .SELL →
      positionPL s = (s.entryPrice - s.currentMarketPrice) * s.quantity) ∧
    (∀ s : PositionStock, s.type = .BUY →
      positionPL s = (s.currentMarketPrice - s.entryPrice) * s.quantity) := by
  have hinv : ∀ positions : List PositionStock,
      totalInvestedPositions positions =
        (positions.map (fun s => s.quantity * s.entryPrice)).sum := by
    intro positions
    rw [totalInvestedPositions, foldl_add_map_sum, zero_add]
  have hcur : ∀ positions : List PositionStock,
      totalCurrentPositions positions =
        (positions.map (fun s => s.quantity * s.currentMarketPrice)).sum := by
    intro positions
    rw [totalCurrentPositions, foldl_add_map_sum, zero_add]
  refine ⟨hinv, hcur, fun positions => ?_, fun s hs => ?_, fun s hs => ?_⟩
  · rw [positionsPL, hinv, hcur, ← sum_map_sub]
    congr 1
    exact List.map_congr_left (fun s _ => by ring)
  · rw [positionPL, if_pos hs]
  · rw [positionPL, if_neg (by rw [hs]; exact fun hc => PositionType.noConfusion hc)]

/-! ## Lemmas about the Watchlist Membership Store (C7, C9) -/

/-- **C7 counterexample**: one `AddMember` call with a list name outside
the map's domain creates that list — starting from the empty record,
adding stock `s1` to the unknown list `w1` makes the key `w1` defined
(bound to `[s1]`), so the set of watchlist names is not invariant. -/
theorem C7_counterexample :
    handleAddStockToWatchlist "s1" "w1" (fun _ => none) "w1" = some ["s1"] ∧
    (fun _ => (none : Option (List String))) "w1" = none := by
  constructor
  · rfl
  · rfl

/-- **C7 amended**: no `AddMember` or `RemoveMember` call ever deletes a
list, and every call whose `listName` is already in the map's domain
preserves the domain exactly; a call whose `listName` is not in the
domain creates exactly that one list — `AddMember` binds it to
`[stockId]`, `RemoveMember` binds it to `[]` — and leaves every other
key untouched. -/
theorem C7_domain_stable_on_known_lists (stockId watchListName : String)
    (prev : String → Option (List String)) :
    (∀ k, prev k ≠ none →
      handleAddStockToWatchlist stockId watchListName prev k ≠ none) ∧
    (∀ k, prev k ≠ none →
      handleRemoveStockFromWatchlist stockId watchListName prev k ≠ none) ∧
    (prev watchListName ≠ none →
      ∀ k, (handleAddStockToWatchlist stockId watchListName prev k = none ↔
              prev k = none) ∧
           (handleRemoveStockFromWatchlist stockId watchListName prev k = none ↔
              prev k = none)) ∧
    (prev watchListName = none →
      handleAddStockToWatchlist stockId watchListName prev watchListName =
        some [stockId] ∧
      handleRemoveStockFromWatchlist stockId watchListName prev watchListName =
        some [] ∧
      ∀ k, k ≠ watchListName →
        handleAddStockToWatchlist stockId watchListName prev k = prev k ∧
        handleRemoveStockFromWatchlist stockId watchListName prev k = prev k) := by
  refine ⟨fun k hk => ?_, fun k hk => ?_, fun hw k => ⟨?_, ?_⟩,
    fun hw => ⟨?_, ?_, fun k hk => ⟨?_, ?_⟩⟩⟩
  · rw [handleAddStockToWatchlist]
    by_cases hmem : stockId ∈ (prev watchListName).getD []
    · simpa [hmem] using hk
    · simp only [hmem, if_false]
      by_cases hkw : k = watchListName
      · simp [hkw]
      · simpa [hkw] using hk
  · rw [handleRemoveStockFromWatchlist]
    by_cases hkw : k = watchListName
    · simp [hkw]
    · simpa [hkw] using hk
  · rw [handleAddStockToWatchlist]
    by_cases hmem : stockId ∈ (prev watchListName).getD []
    · simp [hmem]
    · simp only [hmem, if_false]
      by_cases hkw : k = watchListName
      · subst hkw
        simp [hw]
      · simp [hkw]
  · rw [handleRemoveStockFromWatchlist]
    by_cases hkw : k = watchListName
    · subst hkw
      simp [hw]
    · simp [hkw]
  · rw [handleAddStockToWatchlist]
    simp [hw]
  · rw [handleRemoveStockFromWatchlist]
    simp [hw]
  · rw [handleAddStockToWatchlist]
    simp [hw, hk]
  · rw [handleRemoveStockFromWatchlist]
    simp [hk]

/-- **C9**: `AddMember` twice with the same arguments equals a single
call; an `AddMember` result never contains a duplicate entry when the
previous lists had none; and `RemoveMember` of an id absent from the
target list leaves every list's membership (reading an absent key as
the empty set, as `Members` does) unchanged. -/
theorem C9_add_idempotent_remove_total (stockId watchListName : String)
    (prev : String → Option (List String)) :
    handleAddStockToWatchlist stockId watchListName
        (handleAddStockToWatchlist stockId watchListName prev) =
      handleAddStockToWatchlist stockId watchListName prev ∧
    ((∀ l xs, prev l = some xs → xs.Nodup) →
      ∀ l xs, handleAddStockToWatchlist stockId watchListName prev l = some xs →
        xs.Nodup) ∧
    (stockId ∉ (prev watchListName).getD [] →
      ∀ k, (handleRemoveStockFromWatchlist stockId watchListName prev k).getD []
        = (prev k).getD []) := by
  refine ⟨?_, fun hnd l xs hl => ?_, fun habs k => ?_⟩
  · by_cases hmem : stockId ∈ (prev watchListName).getD []
    · have hinner : handleAddStockToWatchlist stockId watchListName prev =
          prev := by
        rw [handleAddStockToWatchlist, if_pos hmem]
      rw [hinner]
      exact hinner
    · have hfst : handleAddStockToWatchlist stockId watchListName prev =
          fun k => if k = watchListName then
            some ((prev watchListName).getD [] ++ [stockId]) else prev k := by
        rw [handleAddStockToWatchlist, if_neg hmem]
      have hsnd : stockId ∈
          ((handleAddStockToWatchlist stockId watchListName prev
            watchListName).getD []) := by
        rw [hfst]
        simp
      conv_lhs => rw [handleAddStockToWatchlist]
      rw [if_pos hsnd]
  · rw [handleAddStockToWatchlist] at hl
    by_cases hmem : stockId ∈ (prev watchListName).getD []
    · rw [if_pos hmem] at hl
      exact hnd l xs hl
    · rw [if_neg hmem] at hl
      by_cases hkw : l = watchListName
      · subst hkw
        rw [if_pos rfl] at hl
        obtain rfl : (prev l).getD [] ++ [stockId] = xs := Option.some_inj.mp hl
        have hbase : ((prev l).getD []).Nodup := by
          cases hp : prev l with
          | none => simp
          | some ys => simpa using hnd l ys hp
        simpa [List.nodup_append] using ⟨hbase, hmem⟩
      · rw [if_neg hkw] at hl
        exact hnd l xs hl
  · rw [handleRemoveStockFromWatchlist]
    by_cases hkw : k = watchListName
    · subst hkw
      simp only [if_pos rfl, Option.getD_some]
      exact List.filter_eq_self.mpr (fun x hx =>
        bne_iff_ne.mpr (fun hc => habs (hc ▸ hx)))
    · rw [if_neg hkw]

/-! ## Lemmas about the Price Feed Simulator (C8) -/

theorem tickStocks_getElem? (draw : ℕ → ℚ) (stocks : List Stock) (i : ℕ) :
    (tickStocks draw stocks)[i]? = (stocks[i]?).map
      (fun s => { s with currentPrice := updatePrice s.currentPrice (draw i) }) := by
  induction stocks generalizing draw i with
  | nil => simp [tickStocks]
  | cons s rest ih =>
    cases i with
    | zero => simp [tickStocks]
    | succ n =>
      rw [tickStocks]
      simpa using ih (fun j => draw (j + 1)) n

theorem tickHoldings_getElem? (draw : ℕ → ℚ) (holdings : List HoldingStock)
    (i : ℕ) :
    (tickHoldings draw holdings)[i]? = (holdings[i]?).map
      (fun h =>
        { h with
            currentMarketPrice :=
              updatePrice h.currentMarketPrice (draw i) }) := by
  induction holdings generalizing draw i with
  | nil => simp [tickHoldings]
  | cons h rest ih =>
    cases i with
    | zero => simp [tickHoldings]
    | succ n =>
      rw [tickHoldings]
      simpa using ih (fun j => draw (j + 1)) n

theorem tickPositions_getElem? (draw : ℕ → ℚ) (positions : List PositionStock)
    (i : ℕ) :
    (tickPositions draw positions)[i]? = (positions[i]?).map
      (fun p =>
        { p with
            currentMarketPrice :=
              updatePrice p.currentMarketPrice (draw i) }) := by
  induction positions generalizing draw i with
  | nil => simp [tickPositions]
  | cons p rest ih =>
    cases i with
    | zero => simp [tickPositions]
    | succ n =>
      rw [tickPositions]
      simpa using ih (fun j => draw (j + 1)) n

/-- **C8**: on a tick, the entity at index `i` of each tracked list is
rebuilt with only its current-price field replaced by
`max(0, price + d)` for its own draw `d = (r − 1/2)·(1/2)` (with `r` the
entity's `Math.random()` sample); the result is nonnegative for every
input price and draw, and `d` lies in `[−1/4, 1/4]` whenever
`0 ≤ r < 1`. -/
theorem C8_price_feed_clamped_walk (draw : ℕ → ℚ) (stocks : List Stock)
    (holdings : List HoldingStock) (positions : List PositionStock) (i : ℕ) :
    (∀ s, stocks[i]? = some s → (tickStocks draw stocks)[i]? =
      some { s with
               currentPrice :=
                 max 0 (s.currentPrice + (draw i - 1 / 2) * (1 / 2)) }) ∧
    (∀ h, holdings[i]? = some h → (tickHoldings draw holdings)[i]? =
      some { h with
               currentMarketPrice :=
                 max 0 (h.currentMarketPrice + (draw i - 1 / 2) * (1 / 2)) }) ∧
    (∀ p, positions[i]? = some p → (tickPositions draw positions)[i]? =
      some { p with
               currentMarketPrice :=
                 max 0 (p.currentMarketPrice + (draw i - 1 / 2) * (1 / 2)) }) ∧
    (∀ price r : ℚ, 0 ≤ updatePrice price r) ∧
    (∀ r : ℚ, 0 ≤ r → r < 1 →
      -(1 / 4) ≤ (r - 1 / 2) * (1 / 2) ∧ (r - 1 / 2) * (1 / 2) ≤ 1 / 4) := by
  refine ⟨fun s hs => ?_, fun h hh => ?_, fun p hp => ?_,
    fun price r => le_max_left 0 _, fun r hr0 hr1 => ?_⟩
  · rw [tickStocks_getElem?, hs]
    rfl
  · rw [tickHoldings_getElem?, hh]
    rfl
  · rw [tickPositions_getElem?, hp]
    rfl
  · have hd : (r - 1 / 2) * (1 / 2) = r / 2 - 1 / 4 := by ring
    rw [hd]
    constructor <;> linarith

/-! ## Concrete fixtures and witnesses -/

/-- Two fills on a fresh holding name: 10 at 2800, then 5 at 2900. -/
def wFills : List (ℚ × ℚ × String) := [(2800, 10, "h-1"), (2900, 5, "h-2")]

/-- A concrete holding. -/
def wH1 : HoldingStock :=
  { id := "h-1", name := "TCS", exchange := "NSE", quantity := 10,
    avgBuyPrice := 2800, currentMarketPrice := 2850 }

/-- A concrete SELL position. -/
def wP1 : PositionStock :=
  { id := "p-1", name := "INFY", exchange := "NSE", quantity := 15,
    entryPrice := 1470, currentMarketPrice := 1450, type := .SELL }

/-- A concrete pending `up` alert on AAPL at target 180. -/
def wAlert : PriceAlert :=
  { id := 1, stockId := "AAPL", stockName := "Apple", targetPrice := 180,
    direction := .up, triggered := false }

/-- A price snapshot in which AAPL quotes at 181. -/
def wPriceOf : String → Option ℚ := fun s => if s = "AAPL" then some 181 else none

/-- A watch-stock with id `x` quoting 10. -/
def wSX : Stock :=
  { id := "x", name := "X", exchange := "NSE", currentPrice := 10,
    previousDayPrice := 10 }

/-- A position with the same id `x` quoting 20. -/
def wPX : PositionStock :=
  { id := "x", name := "X", exchange := "NSE", quantity := 1,
    entryPrice := 20, currentMarketPrice := 20, type := .BUY }

/-- A watchlist record with one known list `w1 ↦ [s1]`. -/
def wMap : String → Option (List String) :=
  fun k => if k = "w1" then some ["s1"] else none

/-- A deterministic stand-in for the per-entity random samples. -/
def wDraw : ℕ → ℚ := fun _ => 3 / 4

/-- A price snapshot in which instrument `X` quotes at 100. -/
def wPrice100 : String → Option ℚ := fun s => if s = "X" then some 100 else none

theorem C1_buy_weighted_average_witness :
    ∃ res : HoldingStock,
      applyBuysHolding "TCS" "NSE" [] wFills = [] ++ [res] ∧
      res.quantity = (wFills.map (fun f => f.2.1)).sum ∧
      res.avgBuyPrice = (wFills.map (fun f => f.1 * f.2.1)).sum /
        (wFills.map (fun f => f.2.1)).sum :=
  (C1_buy_weighted_average "TCS" "NSE" 2900 5 "h-2" (by norm_num)).2.2.2.2
    [] wFills (by simp) (by simp [wFills]) (by decide)

theorem C2_sell_decrement_or_remove_witness :
    ((handleSellHolding "h-1" 4 [wH1])[[wH1].findIdx (fun h => h.id == "h-1")]? =
        some { wH1 with quantity := wH1.quantity - 4 } ∧
      ∀ j, j ≠ [wH1].findIdx (fun h => h.id == "h-1") →
        (handleSellHolding "h-1" 4 [wH1])[j]? = [wH1][j]?) ∧
    (handleSellPosition "p-1" 15 [wP1] =
        [wP1].filter (fun p => p.id != "p-1") ∧
      ∀ p ∈ handleSellPosition "p-1" 15 [wP1], p.id ≠ "p-1") :=
  ⟨((C2_sell_decrement_or_remove.1 "h-1" 4 [wH1] wH1 rfl (by norm_num)).2
      (by norm_num [wH1])),
   ((C2_sell_decrement_or_remove.2 "p-1" 15 [wP1] wP1 rfl (by norm_num)).1
      rfl)⟩

theorem C3_sell_silent_noop_witness :
    handleSellHolding "zzz" 5 [wH1] = [wH1] ∧
    handleSellPosition "p-1" 99 [wP1] = [wP1] :=
  ⟨C3_sell_silent_noop.1 "zzz" 5 [wH1] (Or.inl (by decide)),
   C3_sell_silent_noop.2 "p-1" 99 [wP1]
     (Or.inr ⟨wP1, rfl, by norm_num [wP1]⟩)⟩

theorem C4_alert_trigger_monotonic_witness :
    (evalPass wPriceOf [wAlert])[0]? = some { wAlert with triggered := true } ∧
    (evalGather wPriceOf [wAlert]).count wAlert.id = 1 :=
  (C4_alert_trigger_monotonic wPriceOf [wAlert] (by simp) 0 wAlert rfl).2.2.1
    rfl 181 rfl (by decide)

theorem C5_lookup_last_write_wins_witness :
    priceMap [wSX] [] [wPX] "x" =
      (assocLast ([wPX].map (fun p => (p.id, p.currentMarketPrice))) "x").elim
        none some ∧
    priceMap [wSX] [] [wPX] "x" ≠ none :=
  (C5_lookup_last_write_wins [wSX] [] [wPX] "x").1 ⟨wPX, by simp, rfl⟩

theorem C6_totals_not_sign_adjusted_witness :
    positionPL wP1 = (wP1.entryPrice - wP1.currentMarketPrice) * wP1.quantity :=
  C6_totals_not_sign_adjusted.2.2.2.1 wP1 rfl

theorem C7_domain_stable_on_known_lists_witness :
    ((handleAddStockToWatchlist "s2" "w1" wMap "w1" = none ↔
        wMap "w1" = none) ∧
      (handleRemoveStockFromWatchlist "s2" "w1" wMap "w1" = none ↔
        wMap "w1" = none)) ∧
    (handleAddStockToWatchlist "s2" "w9" wMap "w9" = some ["s2"] ∧
      handleRemoveStockFromWatchlist "s2" "w9" wMap "w9" = some [] ∧
      ∀ k, k ≠ "w9" →
        handleAddStockToWatchlist "s2" "w9" wMap k = wMap k ∧
        handleRemoveStockFromWatchlist "s2" "w9" wMap k = wMap k) :=
  ⟨(C7_domain_stable_on_known_lists "s2" "w1" wMap).2.2.1 (by decide) "w1",
   (C7_domain_stable_on_known_lists "s2" "w9" wMap).2.2.2 (by decide)⟩

theorem C8_price_feed_clamped_walk_witness :
    ((tickHoldings wDraw [wH1])[0]? =
      some { wH1 with
               currentMarketPrice :=
                 max 0 (wH1.currentMarketPrice + (wDraw 0 - 1 / 2) * (1 / 2)) }) ∧
    (-(1 / 4) ≤ (wDraw 0 - 1 / 2) * (1 / 2) ∧
      (wDraw 0 - 1 / 2) * (1 / 2) ≤ 1 / 4) :=
  ⟨(C8_price_feed_clamped_walk wDraw [] [wH1] [] 0).2.1 wH1 rfl,
   (C8_price_feed_clamped_walk wDraw [] [wH1] [] 0).2.2.2.2 (wDraw 0)
     (by norm_num [wDraw]) (by norm_num [wDraw])⟩

theorem C9_add_idempotent_remove_total_witness :
    (handleAddStockToWatchlist "s2" "w1"
        (handleAddStockToWatchlist "s2" "w1" wMap) =
      handleAddStockToWatchlist "s2" "w1" wMap) ∧
    (∀ k, (handleRemoveStockFromWatchlist "zz" "w1" wMap k).getD [] =
      (wMap k).getD []) :=
  ⟨(C9_add_idempotent_remove_total "s2" "w1" wMap).1,
   (C9_add_idempotent_remove_total "zz" "w1" wMap).2.2 (by decide)⟩

theorem C10_equal_target_alert_witness :
    (mkAlert 7 "X" "XCorp" 100 100).direction = .down ∧
    hasCrossed (mkAlert 7 "X" "XCorp" 100 100) 100 = true ∧
    (evalPass wPrice100 (handleSetAlert 7 "X" "XCorp" 100 100 []))[0]? =
      some { mkAlert 7 "X" "XCorp" 100 100 with triggered := true } ∧
    (evalGather wPrice100 (handleSetAlert 7 "X" "XCorp" 100 100 [])).count 7 =
      1 :=
  C10_equal_target_alert 7 "X" "XCorp" 100 [] wPrice100 (by decide) rfl

end MyStocks
